import Mathlib

/-!
Verification of the dive-list engine (divelist.c) against its natural-language
specification.  The C data model and the functions the claims refer to are
shallowly embedded below: pure C functions become Lean functions, the mutable
selection / trip state becomes explicit state passing, C `int` arithmetic on
small permille / timestamp values is modelled with `Int` (no overflow occurs in
the modelled ranges), C `double` arithmetic is modelled with `ℚ` (the claims at
issue depend only on control flow and exact-zero tests, which coincide), and
code that would dereference a NULL `struct dive *` is modelled as returning
`none` (a fatal error).
-/

namespace Divelist

/-- Gas mix of one cylinder: oxygen and helium in permille
(`struct gasmix` with `o2.permille`, `he.permille`). -/
structure gasmix_t where
  o2 : Int
  he : Int
deriving DecidableEq, Repr

/-- One cylinder slot (`cylinder_t`): gas mix, size in mliter, and the four
pressure fields (manual start/end and sampled start/end, each in mbar) that
`calculate_airuse` reads. -/
structure cylinder_t where
  gasmix : gasmix_t
  size_mliter : Int
  start_mbar : Int
  end_mbar : Int
  sample_start_mbar : Int
  sample_end_mbar : Int
deriving DecidableEq, Repr

/-- One depth sample (`struct sample`): time in seconds, depth in mm. -/
structure sample_t where
  time : Int
  depth : Int
deriving DecidableEq, Repr

/-- Trip-membership flag of a dive; the three values and their meaning are
documented in divelist.c (tripflag_names and the comment in fill_dive_list):
`TF_NONE` "not handled yet", `NO_TRIP` "set as no group", `IN_TRIP`. -/
inductive TripFlag where
  | TF_NONE
  | NO_TRIP
  | IN_TRIP
deriving DecidableEq, Repr

/-- A dive record (`struct dive`), restricted to the fields divelist.c reads
or writes in the functions under verification: timestamp, number, trip flag,
location, selection flag, duration, mean depth, samples and cylinders.
The C cylinder field is a fixed array of MAX_CYLINDERS slots; it is modelled
as the list of those slots. -/
structure dive where
  number : Int
  when : Int
  tripflag : TripFlag
  location : Option String
  selected : Bool
  duration_seconds : Int
  meandepth_mm : Int
  sample : List sample_t
  cylinder : List cylinder_t
deriving DecidableEq, Repr

/-- Modelled from the spec: the air baseline of 209 permille oxygen ("the air
baseline (209‰)"); the constant `AIR_PERMILLE` itself is declared in dive.h,
which is not part of the reviewed sources. -/
def AIR_PERMILLE : Int := 209

/-- Modelled from the spec: `classify_gas` "scans non-empty cylinders"; the
predicate `cylinder_none` is declared in dive.h, which is not part of the
reviewed sources.  A cylinder slot is empty when it records no data at all,
i.e. every numeric field is zero. -/
def cylinder_none (cyl : cylinder_t) : Bool :=
  cyl.gasmix.o2 = 0 ∧ cyl.gasmix.he = 0 ∧ cyl.size_mliter = 0 ∧
  cyl.start_mbar = 0 ∧ cyl.end_mbar = 0 ∧
  cyl.sample_start_mbar = 0 ∧ cyl.sample_end_mbar = 0

/-- Modelled from the spec: `get_dive(index) -> DiveRecord | null` (spec §6);
the function itself lives in dive.h/dive.c, which are not part of the reviewed
sources.  Returns `none` for any index not present in the Dive Store. -/
def get_dive (table : List dive) (idx : Int) : Option dive :=
  if 0 ≤ idx then table.get? idx.toNat else none

/-- One iteration of the cylinder scan of `get_dive_gas` (divelist.c lines
473-494).  The accumulator is `(maxo2, maxhe, mino2)`; empty cylinders are
skipped, a zero oxygen reading defaults to `AIR_PERMILLE`, the running minimum
of oxygen is updated, and the `goto newmax` chain keeps the gas with the
highest helium, ties broken by higher oxygen. -/
def gas_step (acc : Int × Int × Int) (cyl : cylinder_t) : Int × Int × Int :=
  if cylinder_none cyl then acc
  else
    let o2 := if cyl.gasmix.o2 = 0 then AIR_PERMILLE else cyl.gasmix.o2
    let he := cyl.gasmix.he
    let mino2 := if o2 < acc.2.2 then o2 else acc.2.2
    if acc.2.1 < he then (o2, he, mino2)
    else if he < acc.2.1 then (acc.1, acc.2.1, mino2)
    else if o2 ≤ acc.1 then (acc.1, acc.2.1, mino2)
    else (o2, he, mino2)

/-- Embedding of `get_dive_gas` (divelist.c lines 468-501): scan the cylinders
starting from the sentinels `maxo2 = -1`, `maxhe = -1`, `mino2 = 1000`, then
normalize the all-air case (`!maxhe && maxo2 == AIR_PERMILLE && mino2 == maxo2`)
to zero.  The result triple is `(*o2_p, *he_p, *o2low_p)`. -/
def get_dive_gas (d : dive) : Int × Int × Int :=
  let r := d.cylinder.foldl gas_step (-1, -1, 1000)
  if r.2.1 = 0 ∧ r.1 = AIR_PERMILLE ∧ r.2.2 = r.1 then (0, r.2.1, 0)
  else r

/-- Embedding of `nitrox_sort_func` (divelist.c lines 535-560): compare two
dives by the helium of their maximal gas, then by its oxygen, then by minimum
oxygen, returning the C comparator's integer difference. -/
def nitrox_sort_func (a b : dive) : Int :=
  let ga := get_dive_gas a
  let gb := get_dive_gas b
  if ga.2.1 = gb.2.1 then
    if ga.1 = gb.1 then ga.2.2 - gb.2.2
    else ga.1 - gb.1
  else ga.2.1 - gb.2.1

/-- The (helium, oxygen, minimum-oxygen) key of a dive, in the comparison
order used by the sort claim: the triple `(he, o2, o2low)` produced by
`get_dive_gas`. -/
def gasTriple (d : dive) : Int × Int × Int :=
  ((get_dive_gas d).2.1, (get_dive_gas d).1, (get_dive_gas d).2.2)

/-- Lexicographic strict order on (he, o2, o2low) triples, as the spec words
it: higher helium first, ties broken by higher maximal oxygen, further ties
broken by higher minimal oxygen. -/
def lexLtTriple (x y : Int × Int × Int) : Prop :=
  x.1 < y.1 ∨ (x.1 = y.1 ∧ (x.2.1 < y.2.1 ∨ (x.2.1 = y.2.1 ∧ x.2.2 < y.2.2)))

instance (x y : Int × Int × Int) : Decidable (lexLtTriple x y) := by
  unfold lexLtTriple; infer_instance

/-- Modelled from the spec: pressures are stored in mbar and the spec's
`compute_air_use` works with "start pressure in atm"; the converting macro
`to_ATM` is declared in dive.h (not part of the reviewed sources) and divides
the mbar value by one standard atmosphere, 1013.25 mbar. -/
def to_ATM (mbar : Int) : ℚ :=
  (mbar : ℚ) / ((101325 : ℚ) / 100)

/-- Embedding of the per-cylinder body of `calculate_airuse` (divelist.c lines
681-696): skip zero-size cylinders; otherwise prefer the manually recorded
start/end pressure over the sampled one and add
`(to_ATM start - to_ATM end) / 1000 * size`. -/
def airuse_step (airuse : ℚ) (cyl : cylinder_t) : ℚ :=
  if cyl.size_mliter = 0 then airuse
  else
    let start := if cyl.start_mbar ≠ 0 then cyl.start_mbar else cyl.sample_start_mbar
    let finish := if cyl.end_mbar ≠ 0 then cyl.end_mbar else cyl.sample_end_mbar
    let kilo_atm := (to_ATM start - to_ATM finish) / 1000
    airuse + kilo_atm * cyl.size_mliter

/-- Embedding of `calculate_airuse` (divelist.c lines 676-698). -/
def calculate_airuse (d : dive) : ℚ :=
  d.cylinder.foldl airuse_step 0

/-- The specification's per-cylinder consumed volume: a cylinder of size zero
contributes exactly 0 regardless of its pressures; otherwise the contribution
is (start pressure in atm − end pressure in atm) × cylinder size in liters,
preferring a manually recorded pressure over a sampled one. -/
def spec_cyl_use (cyl : cylinder_t) : ℚ :=
  if cyl.size_mliter = 0 then 0
  else
    (to_ATM (if cyl.start_mbar ≠ 0 then cyl.start_mbar else cyl.sample_start_mbar)
      - to_ATM (if cyl.end_mbar ≠ 0 then cyl.end_mbar else cyl.sample_end_mbar))
      * ((cyl.size_mliter : ℚ) / 1000)

/-- Whether a sample is near the surface: depth below 100 mm ("less than
10cm"), the condition of the surface-interval loop of `calculate_sac`. -/
def surf_low (t : sample_t) : Bool :=
  t.depth < 100

/-- Embedding of the inner `while` of the surface-interval loop of
`calculate_sac` (divelist.c lines 715-717): starting at index `e`, advance
over samples with depth below 100 mm and return the first index at or past
`e` whose sample is at depth 100 mm or more (or the sample count). -/
def surf_end (smp : List sample_t) (e : Nat) : Nat :=
  if h : e < smp.length then
    if (smp.get ⟨e, h⟩).depth < 100 then surf_end smp (e + 1) else e
  else e
termination_by smp.length - e

theorem surf_end_ge (smp : List sample_t) (e : Nat) : e ≤ surf_end smp e := by
  rw [surf_end]
  split
  · split
    · have := surf_end_ge smp (e + 1)
      omega
    · exact le_refl e
  · exact le_refl e
termination_by smp.length - e

theorem surf_end_le (smp : List sample_t) (e : Nat) (h : e ≤ smp.length) :
    surf_end smp e ≤ smp.length := by
  rw [surf_end]
  split
  · split
    · exact surf_end_le smp (e + 1) (by omega)
    · exact h
  · exact h
termination_by smp.length - e

/-- Embedding of the surface-interval excision loop of `calculate_sac`
(divelist.c lines 712-726): scan the samples from index `i`; at the start of a
below-100 mm run, find its end `e`; if the dive continues past the run
(`e < samples`), subtract the time from the run's first sample to its last
(index `e - 1`) from `duration` and continue at `e + 1` (the C code sets
`i = end + 1` after `end--`, and the `for` increment adds one more); a run
reaching the last sample subtracts nothing. -/
def surf_adjust (smp : List sample_t) (i : Nat) (duration : Int) : Int :=
  if h : i < smp.length then
    if (smp.get ⟨i, h⟩).depth < 100 then
      let e := surf_end smp (i + 1)
      if he : e < smp.length then
        surf_adjust smp (e + 1)
          (duration - ((smp.get ⟨e - 1, by omega⟩).time - (smp.get ⟨i, h⟩).time))
      else surf_adjust smp (i + 1) duration
    else surf_adjust smp (i + 1) duration
  else duration
termination_by smp.length - i
decreasing_by
  · have := surf_end_ge smp (i + 1)
    omega
  · omega
  · omega

/-- The duration actually used by `calculate_sac` after the surface-interval
loop: the dive's duration minus whatever the loop subtracted. -/
def sac_duration (d : dive) : Int :=
  surf_adjust d.sample 0 d.duration_seconds

/-- Truncation of a rational toward zero, the behaviour of C's
double-to-int conversion in `return sac * 1000;`. -/
def cTrunc (q : ℚ) : Int :=
  q.num.tdiv q.den

/-- Embedding of `calculate_sac` (divelist.c lines 700-733): return 0 when the
air use is zero or the stored duration is zero; otherwise excise interior
surface intervals from the duration, compute mean pressure as
`1 + meandepth/10000` atm and return `airuse / pressure * 60 / duration`
scaled to ml/min. -/
def calculate_sac (d : dive) : Int :=
  let airuse := calculate_airuse d
  if airuse = 0 then 0
  else if d.duration_seconds = 0 then 0
  else
    let duration := sac_duration d
    let pressure : ℚ := 1 + (d.meandepth_mm : ℚ) / 10000
    let sac := airuse / pressure * 60 / (duration : ℚ)
    cTrunc (sac * 1000)

theorem dropWhile_length_le {α : Type} (p : α → Bool) (l : List α) :
    (l.dropWhile p).length ≤ l.length := by
  induction l with
  | nil => simp [List.dropWhile]
  | cons a t ih =>
    rw [List.dropWhile]
    split
    · simp; omega
    · simp

/-- The specification's excised surface time of a sample sequence: the sum,
over every maximal contiguous run of samples with depth below 100 mm that is
strictly interior (the dive continues below the surface after the run, i.e.
some sample follows it), of the run's length in time — the time of the run's
last sample minus the time of its first.  A trailing near-surface run is not
excised. -/
def specExcision : List sample_t → Int
  | [] => 0
  | s :: rest =>
    if surf_low s then
      if rest.dropWhile surf_low = [] then 0
      else
        ((s :: rest.takeWhile surf_low).getLast (by simp)).time
          - s.time + specExcision (rest.dropWhile surf_low)
    else specExcision rest
termination_by l => l.length
decreasing_by
  · have := dropWhile_length_le surf_low rest
    simp
    omega
  · simp

/-!
Selection synchronizer.  The mutable globals of divelist.c that these
callbacks touch — the dive table (through each dive's `selected` flag),
`amount_selected` and `selected_dive` — are gathered into one state record
that is threaded explicitly.  A GTK callback that would dereference a NULL
`struct dive *` returns `none`.
-/

/-- The selection-related mutable state of divelist.c: the dive table (whose
entries carry the `selected` flags), the global `amount_selected` counter and
the global `selected_dive` index. -/
structure SelCtx where
  table : List dive
  amount_selected : Int
  selected_dive : Int
deriving DecidableEq, Repr

/-- Writing a dive record back at its table index (the effect of mutating the
`struct dive *` returned by `get_dive`); out-of-range indices write nothing. -/
def set_dive_at (table : List dive) (idx : Int) (d : dive) : List dive :=
  if 0 ≤ idx then table.set idx.toNat d else table

/-- Embedding of `select_dive` (divelist.c lines 204-210): if the flag changes,
flip it and report the `amount_selected` adjustment, else report no change. -/
def select_dive (d : dive) (selected : Bool) : dive × Int :=
  if d.selected ≠ selected then
    ({ d with selected := selected }, if selected then 1 else -1)
  else (d, 0)

/-- Embedding of `selected_children` (divelist.c lines 148-166) on the list of
child dive indices of a summary row: walk the children in order, dereference
each child's dive (`none` models the crash on a NULL `get_dive` result) and
return `true` at the first selected child, `false` if none is selected. -/
def selected_children_idx (table : List dive) : List Int → Option Bool
  | [] => some false
  | idx :: rest =>
    match get_dive table idx with
    | none => none
    | some d => if d.selected then some true else selected_children_idx table rest

/-- The child loop of `select_dive_group` (divelist.c lines 226-243): for each
child index, remember the first index in `selected_dive` when selecting, skip
children already in the requested state, and apply `select_dive` to the rest.
Dereferencing an absent dive yields `none`. -/
def sdg_loop (s : Bool) : SelCtx → List Int → Bool → Option SelCtx
  | ctx, [], _ => some ctx
  | ctx, idx :: rest, first =>
    let ctx1 := if first ∧ s then { ctx with selected_dive := idx } else ctx
    match get_dive ctx1.table idx with
    | none => none
    | some d =>
      if d.selected = s then sdg_loop s ctx1 rest false
      else
        let p := select_dive d s
        sdg_loop s
          { ctx1 with
            table := set_dive_at ctx1.table idx p.1,
            amount_selected := ctx1.amount_selected + p.2 }
          rest false

/-- Embedding of `select_dive_group` (divelist.c lines 215-244): return
unchanged when the requested state equals the derived state of the children
(`selected == selected_children`), or when there are no children; otherwise
run the child loop. -/
def select_dive_group (ctx : SelCtx) (children : List Int) (selected : Bool) :
    Option SelCtx :=
  match selected_children_idx ctx.table children with
  | none => none
  | some sc =>
    if selected = sc then some ctx
    else
      match children with
      | [] => some ctx
      | _ :: _ => sdg_loop selected ctx children true

/-- Embedding of `check_selection_cb` (divelist.c lines 254-273): a negative
index denotes a group row and is handled by `select_dive_group` over the
row's children; a non-negative index is a dive row, whose record is updated by
`select_dive` — the C code dereferences `get_dive(idx)` there without a NULL
check, modelled by returning `none` when the dive is absent.  For a selected
dive row, `selected_dive` is set to its index. -/
def check_selection_cb (ctx : SelCtx) (idx : Int) (children : List Int)
    (gtk_selected : Bool) : Option SelCtx :=
  if idx < 0 then select_dive_group ctx children gtk_selected
  else
    match get_dive ctx.table idx with
    | none => none
    | some d =>
      let p := select_dive d gtk_selected
      let ctx1 :=
        { ctx with
          table := set_dive_at ctx.table idx p.1,
          amount_selected := ctx.amount_selected + p.2 }
      some (if gtk_selected then { ctx1 with selected_dive := idx } else ctx1)

/-- Embedding of `row_expanded_cb` (divelist.c lines 125-146): for every child
index of the expanded summary row, dereference its dive and read `selected` to
decide whether the child row is re-asserted as selected; the C code performs
`dive->selected` without a NULL check, so an absent dive makes the whole
callback fail (`none`).  The result is the list of per-child selection
indicators passed to the tree selection. -/
def row_expanded_cb (table : List dive) : List Int → Option (List Bool)
  | [] => some []
  | idx :: rest =>
    match get_dive table idx with
    | none => none
    | some d =>
      match row_expanded_cb table rest with
      | none => none
      | some bs => some (d.selected :: bs)

/-- Embedding of `set_one_dive` (divelist.c lines 820-840): negative indices
(summary rows) return `false` (continue iterating) without touching anything;
an absent dive is checked for (`if (!dive) return TRUE`) and also touches
nothing; otherwise the row is refilled unless a filter dive is given and does
not match.  The result is `some (returned boolean, whether fill_one_dive
ran)`; the function never fails and never changes any selection state. -/
def set_one_dive (table : List dive) (idx : Int) (data : Option Int) :
    Option (Bool × Bool) :=
  if idx < 0 then some (false, false)
  else
    match get_dive table idx with
    | none => some (true, false)
    | some _ =>
      match data with
      | some j => if j ≠ idx then some (false, false) else some (true, true)
      | none => some (false, true)

/-- Selection flag stored at a table index, if the index is present. -/
def flagAt (table : List dive) (idx : Int) : Option Bool :=
  (get_dive table idx).map (fun d => d.selected)

/-!
Trip grouping engine.  In divelist.c a trip is itself a `struct dive`
allocated by `alloc_dive()` (all fields zero) of which only `number`, `when`
and `location` are used; trips live in the global `GList *dive_trip_list`.
Heap identity of trips is modelled by a unique id.  The macros the loop uses
(`UNGROUPED_DIVE`, `DIVE_IN_TRIP`, `DIVE_TRIP`, `DIVE_FITS_TRIP`, `PREV_TRIP`,
`FIND_TRIP`, `insert_trip`) are declared outside the reviewed sources and are
modelled from the spec and from the comment at divelist.c lines 915-919, with
the "fits the trip window" acceptance predicate kept abstract as the spec
prescribes.
-/

/-- A trip group: heap identity plus the `number` (member count), `when`
(representative timestamp) and `location` fields that fill_dive_list uses on
the trip's `struct dive`. -/
structure Trip where
  id : Nat
  number : Int
  when : Int
  location : Option String
deriving DecidableEq, Repr

/-- Look a trip up in the trip list by its identity. -/
def trip_get (l : List Trip) (tid : Nat) : Option Trip :=
  l.find? (fun t => t.id = tid)

/-- Update the trip with the given identity in place. -/
def trip_update (l : List Trip) (tid : Nat) (f : Trip → Trip) : List Trip :=
  l.map (fun t => if t.id = tid then f t else t)

/-- Modelled from the spec: the Trip List is "ordered newest-first" and a new
trip is inserted keeping that order (`insert_trip` is declared in dive.h,
which is not part of the reviewed sources): the trip is placed before the
first list entry whose timestamp is not newer. -/
def insert_trip (t : Trip) : List Trip → List Trip
  | [] => [t]
  | x :: xs => if x.when ≤ t.when then t :: x :: xs else x :: insert_trip t xs

/-- Modelled from the spec: the backward search step over the Trip List
(`PREV_TRIP`): from a cursor positioned at a trip, step to the entry before
it; from no cursor, start at the last entry of the list. -/
def prev_trip (cursor : Option Nat) (l : List Trip) : Option Nat :=
  match cursor with
  | none => (l.getLast?).map (fun t => t.id)
  | some tid =>
    match l.findIdx? (fun t => t.id = tid) with
    | none => none
    | some 0 => none
    | some (j + 1) => (l.get? j).map (fun t => t.id)

/-- The state threaded through `fill_dive_list`'s main loop: the dive table,
the persistent `dive_trip_list` with the id counter backing trip allocation,
the loop locals `trip` (the Trip List cursor), `dive_trip` (the current open
trip) and `last_trip`, and the emitted rows — for each processed dive index,
the trip it was attached to (`none` = top level). -/
structure FillState where
  dives : List dive
  trip_list : List Trip
  next_id : Nat
  trip : Option Nat
  dive_trip : Option Nat
  last_trip : Option Nat
  rows : List (Nat × Option Nat)
deriving DecidableEq, Repr

/-- Allocation of a fresh trip (`alloc_dive()`: every field zero) followed by
`insert_trip` and `trip = FIND_TRIP(dive_trip, dive_trip_list)` — the cursor
ends up at the freshly inserted trip (divelist.c lines 926-930 and 940-943). -/
def alloc_and_insert (st : FillState) : FillState :=
  let t : Trip := { id := st.next_id, number := 0, when := 0, location := none }
  { st with
    trip_list := insert_trip t st.trip_list,
    next_id := st.next_id + 1,
    dive_trip := some t.id,
    trip := some t.id }

/-- Whether the dive fits the trip with identity `tid`, evaluating the
abstract window predicate on the dive's and the trip's current timestamps;
false when there is no such trip (the NULL checks guarding DIVE_FITS_TRIP). -/
def fits_trip (fits : Int → Int → Bool) (l : List Trip) (d : dive)
    (tid : Option Nat) : Bool :=
  match tid.bind (trip_get l) with
  | none => false
  | some t => fits d.when t.when

/-- One iteration of the main loop of `fill_dive_list` (divelist.c lines
901-1006) for the dive at index `i`, keeping the trip-assignment logic and
the per-trip bookkeeping and dropping only the GTK row rendering: refresh
`dive_trip` from the cursor (line 913); dispatch on the trip flag — a
`NO_TRIP` dive goes to the top level, an unhandled dive under autogroup joins
or opens a time-based trip, and otherwise the cursor trip is tried, then one
step back, then (under autogroup) a fresh trip; finally, if a trip is
current, attach the dive: flag it `IN_TRIP`, increment the trip's member
count, set the trip's timestamp to the dive's and its location to the first
non-empty dive location (lines 954-976). -/
def fill_step (fits : Int → Int → Bool) (autogroup : Bool)
    (st : FillState) (i : Nat) : FillState :=
  match st.dives.get? i with
  | none => st
  | some d =>
    let st := if st.trip.isSome then { st with dive_trip := st.trip } else st
    let st :=
      if d.tripflag = TripFlag.NO_TRIP then
        { st with dive_trip := none }
      else if autogroup ∧ d.tripflag ≠ TripFlag.IN_TRIP then
        if fits_trip fits st.trip_list d st.dive_trip then st
        else alloc_and_insert st
      else
        if fits_trip fits st.trip_list d st.trip then st
        else
          let last_trip_l := st.trip
          let cursor2 := prev_trip st.trip st.trip_list
          if fits_trip fits st.trip_list d cursor2 then
            { st with
              trip := cursor2,
              dive_trip := cursor2,
              trip_list :=
                match cursor2 with
                | none => st.trip_list
                | some tid => trip_update st.trip_list tid
                    (fun t => { t with number := 0 }) }
          else if autogroup then alloc_and_insert { st with trip := cursor2 }
          else { st with trip := last_trip_l }
    match st.dive_trip with
    | none => { st with rows := (i, none) :: st.rows }
    | some tid =>
      { st with
        dives := st.dives.set i { d with tripflag := TripFlag.IN_TRIP },
        trip_list := trip_update st.trip_list tid
          (fun t =>
            { t with
              number := t.number + 1,
              when := d.when,
              location :=
                if t.location = none ∧ d.location ≠ none then d.location
                else t.location }),
        last_trip := some tid,
        rows := (i, some tid) :: st.rows }

/-- Embedding of `fill_dive_list` (divelist.c lines 885-1025): start the Trip
List cursor on the last pre-existing trip (line 895), then process the dives
newest-first (`i = dive_table.nr; while (--i >= 0)`).  The dive table, the
trip list and the id counter persist from run to run; the rows are rebuilt
each run. -/
def fill_dive_list (fits : Int → Int → Bool) (autogroup : Bool)
    (dives : List dive) (trip_list : List Trip) (next_id : Nat) : FillState :=
  let st0 : FillState :=
    { dives := dives, trip_list := trip_list, next_id := next_id,
      trip := (trip_list.getLast?).map (fun t => t.id),
      dive_trip := none, last_trip := none, rows := [] }
  ((List.range dives.length).reverse).foldl (fill_step fits autogroup) st0

/-- Embedding of `dive_list_update_dives` (divelist.c lines 1027-1033): the
tree stores are cleared (the rows are rebuilt from scratch) and
`fill_dive_list` runs again on the persistent dive table, trip list and id
counter — none of which is reset. -/
def dive_list_update_dives (fits : Int → Int → Bool) (autogroup : Bool)
    (st : FillState) : FillState :=
  fill_dive_list fits autogroup st.dives st.trip_list st.next_id

/-- The partition a finished pass induces: for each processed dive index, the
identity of the trip it was attached to (`none` for top level), oldest dive
first. -/
def rowPartition (st : FillState) : List (Nat × Option Nat) :=
  st.rows

/-!
Concrete records used to instantiate the theorems below.
-/

/-- A cylinder slot with no recorded data. -/
def cyl_zero : cylinder_t :=
  { gasmix := { o2 := 0, he := 0 }, size_mliter := 0, start_mbar := 0,
    end_mbar := 0, sample_start_mbar := 0, sample_end_mbar := 0 }

/-- A cylinder filled with plain air: oxygen recorded as 209 permille. -/
def cyl_air : cylinder_t :=
  { cyl_zero with gasmix := { o2 := 209, he := 0 } }

/-- A 10 l cylinder with no recorded gas mix: its oxygen reading of 0 defaults
to the air baseline inside `get_dive_gas`. -/
def cyl_bare : cylinder_t :=
  { cyl_zero with size_mliter := 10000 }

/-- A dive record with every field zero or empty. -/
def dive_base : dive :=
  { number := 0, when := 0, tripflag := TripFlag.TF_NONE, location := none,
    selected := false, duration_seconds := 0, meandepth_mm := 0,
    sample := [], cylinder := [] }

/-- A dive whose cylinder slots are all empty. -/
def dive_all_none : dive :=
  { dive_base with cylinder := [cyl_zero, cyl_zero] }

/-- A dive breathing plain air: one air cylinder, one defaulted cylinder and
one empty slot. -/
def dive_air : dive :=
  { dive_base with cylinder := [cyl_air, cyl_bare, cyl_zero] }

/-- A dive of timestamp `w` that has not been assigned to any trip yet. -/
def dive_at (w : Int) : dive :=
  { dive_base with when := w }

/-- Selection state with three unselected dives. -/
def ctx3 : SelCtx :=
  { table := [dive_base, dive_base, dive_base], amount_selected := 0,
    selected_dive := 0 }

/-- Selection state over an empty Dive Store: every dive index is absent. -/
def ctx_empty : SelCtx :=
  { table := [], amount_selected := 0, selected_dive := 0 }

/-- A concrete trip window: the candidate timestamp and the trip timestamp lie
within ten units of each other. -/
def fits_near : Int → Int → Bool :=
  fun dw tw => (tw - dw).natAbs ≤ 10

/-!
Theorems.
-/

/-- C4: the gas-mix sort comparator `nitrox_sort_func` orders dives exactly by
the lexicographic comparison of the `(he, o2, o2low)` triples produced by
`get_dive_gas`: the comparator is negative, zero or positive exactly when the
first dive's triple is lexicographically below, equal to or above the second
dive's.  With the column's descending direction this puts higher helium
first, ties broken by higher maximal oxygen, then by higher minimal oxygen,
and the induced order is total since the lexicographic order on triples is. -/
theorem nitrox_sort_func_lex (a b : dive) :
    (nitrox_sort_func a b < 0 ↔ lexLtTriple (gasTriple a) (gasTriple b)) ∧
    (nitrox_sort_func a b = 0 ↔ gasTriple a = gasTriple b) ∧
    (0 < nitrox_sort_func a b ↔ lexLtTriple (gasTriple b) (gasTriple a)) := by
  rcases hga : get_dive_gas a with ⟨ao2, ahe, alow⟩
  rcases hgb : get_dive_gas b with ⟨bo2, bhe, blow⟩
  simp only [nitrox_sort_func, gasTriple, lexLtTriple, hga, hgb, Prod.mk.injEq]
  refine ⟨?_, ?_, ?_⟩ <;> split_ifs <;> omega

theorem gas_step_none {c : cylinder_t} (h : cylinder_none c = true)
    (acc : Int × Int × Int) : gas_step acc c = acc := by
  simp [gas_step, h]

theorem gas_step_air {c : cylinder_t} (hn : cylinder_none c = false)
    (hhe : c.gasmix.he = 0) (ho2 : c.gasmix.o2 = 209 ∨ c.gasmix.o2 = 0) :
    gas_step (209, 0, 209) c = (209, 0, 209) := by
  rcases ho2 with h | h <;>
    simp [gas_step, hn, hhe, h, AIR_PERMILLE]

theorem gas_step_air_first {c : cylinder_t} (hn : cylinder_none c = false)
    (hhe : c.gasmix.he = 0) (ho2 : c.gasmix.o2 = 209 ∨ c.gasmix.o2 = 0) :
    gas_step (-1, -1, 1000) c = (209, 0, 209) := by
  rcases ho2 with h | h <;>
    simp [gas_step, hn, hhe, h, AIR_PERMILLE]

theorem gas_fold_air_keep (l : List cylinder_t)
    (h : ∀ c ∈ l, c.gasmix.he = 0 ∧
      (cylinder_none c = false → c.gasmix.o2 = 209 ∨ c.gasmix.o2 = 0)) :
    l.foldl gas_step (209, 0, 209) = (209, 0, 209) := by
  induction l with
  | nil => rfl
  | cons c t ih =>
    obtain ⟨hhe, ho2⟩ := h c (List.mem_cons_self c t)
    rw [List.foldl_cons]
    rcases hn : cylinder_none c with hf | ht
    · rw [gas_step_air hn hhe (ho2 hn)]
      exact ih (fun x hx => h x (List.mem_cons_of_mem c hx))
    · rw [gas_step_none hn]
      exact ih (fun x hx => h x (List.mem_cons_of_mem c hx))

theorem gas_fold_air (l : List cylinder_t)
    (h : ∀ c ∈ l, c.gasmix.he = 0 ∧
      (cylinder_none c = false → c.gasmix.o2 = 209 ∨ c.gasmix.o2 = 0))
    (hne : ∃ c ∈ l, cylinder_none c = false) :
    l.foldl gas_step (-1, -1, 1000) = (209, 0, 209) := by
  induction l with
  | nil => simp at hne
  | cons c t ih =>
    obtain ⟨hhe, ho2⟩ := h c (List.mem_cons_self c t)
    rw [List.foldl_cons]
    rcases hn : cylinder_none c with hf | ht
    · rw [gas_step_air_first hn hhe (ho2 hn)]
      exact gas_fold_air_keep t (fun x hx => h x (List.mem_cons_of_mem c hx))
    · rw [gas_step_none hn]
      apply ih (fun x hx => h x (List.mem_cons_of_mem c hx))
      rcases hne with ⟨x, hx, hxn⟩
      rcases List.mem_cons.mp hx with rfl | hx
      · rw [hn] at hxn; cases hxn
      · exact ⟨x, hx, hxn⟩

/-- C5 (amended): for every dive in which every cylinder has helium 0, every
non-empty cylinder records oxygen 209 permille or 0 (which defaults to the
209 air baseline), and at least one cylinder slot is non-empty, `get_dive_gas`
returns the normalized plain-air triple `(0, 0, 0)`. -/
theorem get_dive_gas_plain_air (d : dive)
    (hhe : ∀ c ∈ d.cylinder, c.gasmix.he = 0)
    (ho2 : ∀ c ∈ d.cylinder,
      cylinder_none c = false → c.gasmix.o2 = 209 ∨ c.gasmix.o2 = 0)
    (hne : ∃ c ∈ d.cylinder, cylinder_none c = false) :
    get_dive_gas d = (0, 0, 0) := by
  unfold get_dive_gas
  rw [gas_fold_air d.cylinder (fun c hc => ⟨hhe c hc, ho2 c hc⟩) hne]
  norm_num [AIR_PERMILLE]

/-- C5 witness: the plain-air dive `dive_air` satisfies the hypotheses and is
classified as `(0, 0, 0)`. -/
theorem get_dive_gas_plain_air_witness : get_dive_gas dive_air = (0, 0, 0) :=
  get_dive_gas_plain_air dive_air (by decide) (by decide) (by decide)

/-- C5 counterexample: a dive whose cylinder slots are all empty satisfies the
claim's hypotheses — every cylinder has helium 0, and every non-empty cylinder
(there are none) vacuously records the air baseline — yet `get_dive_gas`
returns the sentinel triple `(-1, -1, 1000)`, not `(0, 0, 0)`. -/
theorem get_dive_gas_all_none_counterexample :
    (∀ c ∈ dive_all_none.cylinder, c.gasmix.he = 0) ∧
    (∀ c ∈ dive_all_none.cylinder,
      cylinder_none c = false → c.gasmix.o2 = 209 ∨ c.gasmix.o2 = 0) ∧
    get_dive_gas dive_all_none ≠ (0, 0, 0) := by
  refine ⟨by decide, by decide, by decide⟩

theorem gas_fold_all_none (l : List cylinder_t)
    (h : ∀ c ∈ l, cylinder_none c = true) (acc : Int × Int × Int) :
    l.foldl gas_step acc = acc := by
  induction l generalizing acc with
  | nil => rfl
  | cons c t ih =>
    rw [List.foldl_cons, gas_step_none (h c (List.mem_cons_self c t))]
    exact ih (fun x hx => h x (List.mem_cons_of_mem c hx)) acc

/-- C10: for a dive in which every cylinder slot is empty, `get_dive_gas`
returns the initial sentinel values `o2_max = -1`, `he_max = -1`,
`o2_min = 1000`: the plain-air normalization does not fire because the
sentinel `maxhe = -1` is not zero. -/
theorem get_dive_gas_all_none (d : dive)
    (h : ∀ c ∈ d.cylinder, cylinder_none c = true) :
    get_dive_gas d = (-1, -1, 1000) := by
  unfold get_dive_gas
  rw [gas_fold_all_none d.cylinder h]
  norm_num

/-- C10 witness: the all-empty dive `dive_all_none` evaluates to the sentinel
triple. -/
theorem get_dive_gas_all_none_witness :
    get_dive_gas dive_all_none = (-1, -1, 1000) :=
  get_dive_gas_all_none dive_all_none (by decide)

/-- C6: `calculate_sac` returns 0 whenever the dive's total air use is 0 or
the dive's stored duration is 0 seconds; both degenerate inputs are caught by
early returns, so neither is propagated as an error. -/
theorem calculate_sac_degenerate (d : dive)
    (h : calculate_airuse d = 0 ∨ d.duration_seconds = 0) :
    calculate_sac d = 0 := by
  rcases h with h | h <;> simp [calculate_sac, h, ite_self]

/-- C6 witness: the empty dive has zero air use and zero duration, and its
SAC is 0. -/
theorem calculate_sac_degenerate_witness : calculate_sac dive_base = 0 :=
  calculate_sac_degenerate dive_base (Or.inr rfl)

/-- C8: `calculate_airuse` equals the sum over the dive's cylinders of the
specification's per-cylinder consumed volume: cylinders of size 0 contribute
exactly 0 regardless of their pressures, and every other cylinder contributes
(start pressure in atm − end pressure in atm) × size in liters, preferring
the manually recorded pressures over the sampled ones. -/
theorem calculate_airuse_spec (d : dive) :
    calculate_airuse d = (d.cylinder.map spec_cyl_use).sum := by
  have key : ∀ (l : List cylinder_t) (a : ℚ),
      l.foldl airuse_step a = a + (l.map spec_cyl_use).sum := by
    intro l
    induction l with
    | nil => intro a; simp
    | cons c t ih =>
      intro a
      rw [List.foldl_cons, ih, List.map_cons, List.sum_cons]
      simp only [airuse_step, spec_cyl_use]
      split_ifs <;> ring
  unfold calculate_airuse
  rw [key d.cylinder 0, zero_add]

theorem takeWhile_length_le {α : Type} (p : α → Bool) (l : List α) :
    (l.takeWhile p).length ≤ l.length := by
  induction l with
  | nil => simp
  | cons a t ih =>
    rw [List.takeWhile_cons]
    split
    · simp
      omega
    · simp

theorem surf_end_spec (smp : List sample_t) (e : Nat) :
    surf_end smp e = e + ((smp.drop e).takeWhile surf_low).length := by
  rw [surf_end]
  by_cases h : e < smp.length
  · have hcons := List.drop_eq_getElem_cons (l := smp) h
    by_cases hd : (smp.get ⟨e, h⟩).depth < 100
    · have hrec := surf_end_spec smp (e + 1)
      have hlow : surf_low smp[e] = true := by
        simpa [surf_low, List.get_eq_getElem] using hd
      simp only [dif_pos h, if_pos hd, hrec, hcons, List.takeWhile_cons, hlow]
      simp
      omega
    · have hlow : surf_low smp[e] = false := by
        simp only [surf_low, decide_eq_false_iff_not]
        simpa [List.get_eq_getElem] using hd
      simp only [dif_pos h, if_neg hd, hcons, List.takeWhile_cons, hlow]
      simp
  · rw [dif_neg h, List.drop_eq_nil_of_le (by omega)]
    simp
termination_by smp.length - e

theorem dropWhile_as_drop {α : Type} (p : α → Bool) (l : List α) :
    l.dropWhile p = l.drop (l.takeWhile p).length := by
  induction l with
  | nil => simp
  | cons a t ih =>
    rw [List.dropWhile_cons, List.takeWhile_cons]
    by_cases hp : p a
    · simp [hp, ih]
    · simp [hp]

theorem specExcision_all_low (l : List sample_t)
    (h : l.dropWhile surf_low = []) : specExcision l = 0 := by
  cases l with
  | nil => simp [specExcision]
  | cons s rest =>
    rw [List.dropWhile_cons] at h
    by_cases hp : surf_low s
    · rw [if_pos hp] at h
      rw [specExcision]
      simp [hp, h]
    · rw [if_neg hp] at h
      cases h

theorem surf_end_stop (smp : List sample_t) (e : Nat)
    (h : surf_end smp e < smp.length) :
    ¬ (smp.get ⟨surf_end smp e, h⟩).depth < 100 := by
  have hdw : (smp.drop e).dropWhile surf_low = smp.drop (surf_end smp e) := by
    rw [dropWhile_as_drop, surf_end_spec smp e, List.drop_drop]
    try congr 1
    try omega
  have hlen : 0 < ((smp.drop e).dropWhile surf_low).length := by
    rw [hdw, List.length_drop]
    omega
  have hzero := List.dropWhile_get_zero_not surf_low (smp.drop e) hlen
  have hget : ((smp.drop e).dropWhile surf_low).get ⟨0, hlen⟩
      = smp.get ⟨surf_end smp e, h⟩ := by
    rw [List.get_of_eq hdw ⟨0, hlen⟩]
    simp [List.get_eq_getElem, List.getElem_drop]
  rw [hget] at hzero
  simpa [surf_low] using hzero

theorem getLast_cons_getLastD {α : Type} (x : α) (w : List α) :
    (x :: w).getLast (List.cons_ne_nil x w) = w.getLastD x := by
  induction w generalizing x with
  | nil => rfl
  | cons y t ih =>
    rw [List.getLast_cons (List.cons_ne_nil y t), ih y, List.getLastD_cons]

theorem getLastD_takeWhile {α : Type} (p : α → Bool) (u : List α) (x : α) :
    some ((u.takeWhile p).getLastD x) = (x :: u)[(u.takeWhile p).length]? := by
  induction u generalizing x with
  | nil => rfl
  | cons y t ih =>
    rw [List.takeWhile_cons]
    by_cases hy : p y
    · rw [if_pos hy]
      rw [List.getLastD_cons]
      rw [ih y]
      rw [List.length_cons, List.getElem?_cons_succ]
    · rw [if_neg hy]
      rfl

theorem run_getLast (smp : List sample_t) (i : Nat) (h : i < smp.length)
    (hb : i + ((smp.drop (i + 1)).takeWhile surf_low).length < smp.length) :
    ((smp.get ⟨i, h⟩ :: (smp.drop (i + 1)).takeWhile surf_low).getLast
        (List.cons_ne_nil _ _))
      = smp.get ⟨i + ((smp.drop (i + 1)).takeWhile surf_low).length, hb⟩ := by
  rw [getLast_cons_getLastD]
  have hsome := getLastD_takeWhile surf_low (smp.drop (i + 1)) (smp.get ⟨i, h⟩)
  have hcons : smp.get ⟨i, h⟩ :: smp.drop (i + 1) = smp.drop i := by
    rw [List.drop_eq_getElem_cons h]
    rfl
  rw [hcons] at hsome
  rw [List.getElem?_drop] at hsome
  rw [List.getElem?_eq_getElem (by omega)] at hsome
  have := Option.some.inj hsome
  rw [this]
  simp only [List.get_eq_getElem]

theorem surf_adjust_spec (smp : List sample_t) (i : Nat) (dur : Int) :
    surf_adjust smp i dur = dur - specExcision (smp.drop i) := by
  rw [surf_adjust]
  by_cases h : i < smp.length
  · have hcons : smp.drop i = smp.get ⟨i, h⟩ :: smp.drop (i + 1) := by
      rw [List.drop_eq_getElem_cons h]
      rfl
    by_cases hd : (smp.get ⟨i, h⟩).depth < 100
    · have hlow : surf_low (smp.get ⟨i, h⟩) = true := by
        simpa [surf_low] using hd
      have hend := surf_end_spec smp (i + 1)
      have hge := surf_end_ge smp (i + 1)
      have hdw : (smp.drop (i + 1)).dropWhile surf_low
          = smp.drop (surf_end smp (i + 1)) := by
        rw [dropWhile_as_drop, hend, List.drop_drop]
        try congr 1
        try omega
      by_cases he : surf_end smp (i + 1) < smp.length
      · have hne : (smp.drop (i + 1)).dropWhile surf_low ≠ [] := by
          rw [hdw]
          intro hnil
          have := List.drop_eq_nil_iff_le.mp hnil
          omega
        have hrec := surf_adjust_spec smp (surf_end smp (i + 1) + 1)
          (dur - ((smp.get ⟨surf_end smp (i + 1) - 1, by omega⟩).time
            - (smp.get ⟨i, h⟩).time))
        simp only [dif_pos h, if_pos hd, dif_pos he, hrec]
        rw [hcons, specExcision]
        rw [if_pos hlow, if_neg hne]
        have hb : i + ((smp.drop (i + 1)).takeWhile surf_low).length
            < smp.length := by omega
        rw [run_getLast smp i h hb]
        have hstop : ¬ surf_low (smp.get ⟨surf_end smp (i + 1), he⟩) = true := by
          simp only [surf_low, decide_eq_true_eq]
          exact surf_end_stop smp (i + 1) he
        have hstep : specExcision ((smp.drop (i + 1)).dropWhile surf_low)
            = specExcision (smp.drop (surf_end smp (i + 1) + 1)) := by
          have hcons2 : smp.drop (surf_end smp (i + 1))
              = smp.get ⟨surf_end smp (i + 1), he⟩
                :: smp.drop (surf_end smp (i + 1) + 1) := by
            rw [List.drop_eq_getElem_cons he]
            rfl
          rw [hdw, hcons2, specExcision, if_neg hstop]
        rw [hstep]
        have hival : smp.get ⟨surf_end smp (i + 1) - 1, by omega⟩
            = smp.get ⟨i + ((smp.drop (i + 1)).takeWhile surf_low).length, hb⟩ := by
          apply congrArg
          apply Fin.ext
          simp
          omega
        rw [hival]
        omega
      · have hnil : (smp.drop (i + 1)).dropWhile surf_low = [] := by
          rw [hdw]
          exact List.drop_eq_nil_of_le (by omega)
        have hrec := surf_adjust_spec smp (i + 1) dur
        simp only [dif_pos h, if_pos hd, dif_neg he, hrec]
        rw [hcons, specExcision, if_pos hlow, if_pos hnil]
        rw [specExcision_all_low _ hnil]
    · have hlow : ¬ surf_low (smp.get ⟨i, h⟩) = true := by
        simp only [surf_low, decide_eq_true_eq]
        exact hd
      have hrec := surf_adjust_spec smp (i + 1) dur
      simp only [dif_pos h, if_neg hd, hrec]
      rw [hcons, specExcision, if_neg hlow]
  · rw [dif_neg h, List.drop_eq_nil_of_le (by omega)]
    simp [specExcision]
termination_by smp.length - i
decreasing_by
  all_goals omega

theorem get_dive_isSome_iff (t : List dive) (j : Int) :
    (get_dive t j).isSome = true ↔ 0 ≤ j ∧ j.toNat < t.length := by
  unfold get_dive
  by_cases hj : 0 ≤ j
  · rw [if_pos hj]
    constructor
    · intro hs
      refine ⟨hj, ?_⟩
      by_contra hlen
      rw [List.get?_eq_none.mpr (by omega)] at hs
      cases hs
    · rintro ⟨-, hlen⟩
      rw [List.get?_eq_get hlen]
      rfl
  · rw [if_neg hj]
    simp [hj]

theorem get_dive_set_at_other (t : List dive) (idx j : Int) (d : dive)
    (h : j ≠ idx) : get_dive (set_dive_at t idx d) j = get_dive t j := by
  unfold get_dive set_dive_at
  by_cases hi : 0 ≤ idx
  · rw [if_pos hi]
    by_cases hj : 0 ≤ j
    · rw [if_pos hj, if_pos hj]
      apply List.get?_set_ne
      omega
    · rw [if_neg hj, if_neg hj]
  · rw [if_neg hi]

theorem get_dive_set_at_self (t : List dive) (idx : Int) (d : dive)
    (h : (get_dive t idx).isSome = true) :
    get_dive (set_dive_at t idx d) idx = some d := by
  obtain ⟨hi, hlen⟩ := (get_dive_isSome_iff t idx).mp h
  unfold get_dive set_dive_at
  rw [if_pos hi, if_pos hi]
  exact List.get?_set_eq_of_lt d hlen

theorem set_dive_at_length (t : List dive) (idx : Int) (d : dive) :
    (set_dive_at t idx d).length = t.length := by
  unfold set_dive_at
  split
  · simp
  · rfl

theorem get_dive_set_at_isSome (t : List dive) (idx j : Int) (d : dive) :
    (get_dive (set_dive_at t idx d) j).isSome = (get_dive t j).isSome := by
  have h1 := get_dive_isSome_iff (set_dive_at t idx d) j
  rw [set_dive_at_length] at h1
  have h2 := get_dive_isSome_iff t j
  by_cases hb : 0 ≤ j ∧ j.toNat < t.length
  · rw [h1.mpr hb, h2.mpr hb]
  · have e1 : (get_dive (set_dive_at t idx d) j).isSome = false :=
      Bool.eq_false_iff.mpr (fun hc => hb (h1.mp hc))
    have e2 : (get_dive t j).isSome = false :=
      Bool.eq_false_iff.mpr (fun hc => hb (h2.mp hc))
    rw [e1, e2]

/-- C7: the duration `calculate_sac` divides by is the dive's stored duration
minus the summed time lengths of every maximal contiguous run of samples with
depth below 100 mm that is strictly interior to the sample sequence (the dive
continues below the surface after the run); a near-surface run extending to
the very last sample is not subtracted. -/
theorem sac_duration_spec (d : dive) :
    sac_duration d = d.duration_seconds - specExcision d.sample := by
  unfold sac_duration
  rw [surf_adjust_spec d.sample 0 d.duration_seconds]
  rfl

theorem flagAt_some (t : List dive) (j : Int) (b : Bool) :
    flagAt t j = some b ↔ ∃ d, get_dive t j = some d ∧ d.selected = b := by
  unfold flagAt
  cases h : get_dive t j <;> simp

theorem select_dive_fst_selected (d : dive) (s : Bool) :
    ((select_dive d s).1).selected = s := by
  unfold select_dive
  by_cases h : d.selected = s
  · rw [if_neg (not_not.mpr h)]
    exact h
  · rw [if_pos h]

theorem sdg_loop_flags_sub (s : Bool) (children : List Int) :
    ∀ (ctx ctx' : SelCtx) (f : Bool),
      sdg_loop s ctx children f = some ctx' →
      ∀ j, flagAt ctx'.table j = flagAt ctx.table j
        ∨ flagAt ctx'.table j = some s := by
  induction children with
  | nil =>
    intro ctx ctx' f h j
    cases h
    exact Or.inl rfl
  | cons idx rest ih =>
    intro ctx ctx' f h j
    simp only [sdg_loop] at h
    have htab : (if f ∧ s then { ctx with selected_dive := idx }
        else ctx).table = ctx.table := by
      split <;> rfl
    rw [htab] at h
    cases hg : get_dive ctx.table idx with
    | none =>
      rw [hg] at h
      cases h
    | some d =>
      rw [hg] at h
      dsimp only at h
      by_cases hds : d.selected = s
      · rw [if_pos hds] at h
        rcases ih _ ctx' false h j with h1 | h1
        · left
          rw [h1]
          unfold flagAt
          rw [htab]
        · right
          exact h1
      · rw [if_neg hds] at h
        rcases ih _ ctx' false h j with h1 | h1
        · by_cases hj : j = idx
          · subst hj
            right
            rw [h1]
            unfold flagAt
            dsimp only
            rw [get_dive_set_at_self _ _ _ (by rw [hg]; rfl)]
            simp [select_dive_fst_selected]
          · left
            rw [h1]
            unfold flagAt
            dsimp only
            rw [get_dive_set_at_other _ _ _ _ hj]
        · right
          exact h1

theorem sdg_loop_total (s : Bool) (children : List Int) :
    ∀ (ctx : SelCtx) (f : Bool),
      (∀ i ∈ children, (get_dive ctx.table i).isSome = true) →
      ∃ ctx', sdg_loop s ctx children f = some ctx'
        ∧ (∀ i ∈ children, flagAt ctx'.table i = some s) := by
  induction children with
  | nil =>
    intro ctx f _
    exact ⟨ctx, rfl, by simp⟩
  | cons idx rest ih =>
    intro ctx f hpres
    have hidx := hpres idx (List.mem_cons_self idx rest)
    obtain ⟨d, hd⟩ := Option.isSome_iff_exists.mp hidx
    simp only [sdg_loop]
    have htab : (if f ∧ s then { ctx with selected_dive := idx }
        else ctx).table = ctx.table := by
      split <;> rfl
    rw [htab, hd]
    dsimp only
    by_cases hds : d.selected = s
    · rw [if_pos hds]
      obtain ⟨ctx', hloop, hflags⟩ := ih _ false (fun i hi => by
        rw [htab]
        exact hpres i (List.mem_cons_of_mem _ hi))
      refine ⟨ctx', hloop, ?_⟩
      intro i hi
      rcases List.mem_cons.mp hi with rfl | hi
      · rcases sdg_loop_flags_sub s rest _ ctx' false hloop i with h1 | h1
        · rw [h1]
          unfold flagAt
          rw [htab, hd]
          simp [hds]
        · exact h1
      · exact hflags i hi
    · rw [if_neg hds]
      obtain ⟨ctx', hloop, hflags⟩ := ih
        { table := set_dive_at ctx.table idx (select_dive d s).1,
          amount_selected :=
            (if f ∧ s then { ctx with selected_dive := idx }
              else ctx).amount_selected + (select_dive d s).2,
          selected_dive :=
            (if f ∧ s then { ctx with selected_dive := idx }
              else ctx).selected_dive }
        false (fun i hi => by
          rw [get_dive_set_at_isSome]
          exact hpres i (List.mem_cons_of_mem _ hi))
      refine ⟨ctx', hloop, ?_⟩
      intro i hi
      rcases List.mem_cons.mp hi with rfl | hi
      · rcases sdg_loop_flags_sub s rest _ ctx' false hloop i with h1 | h1
        · rw [h1]
          unfold flagAt
          rw [get_dive_set_at_self _ _ _ (by rw [hd]; rfl)]
          simp [select_dive_fst_selected]
        · exact h1
      · exact hflags i hi

theorem selected_children_idx_total (t : List dive) (children : List Int)
    (h : ∀ i ∈ children, (get_dive t i).isSome = true) :
    ∃ b, selected_children_idx t children = some b := by
  induction children with
  | nil => exact ⟨false, rfl⟩
  | cons i rest ih =>
    obtain ⟨d, hd⟩ := Option.isSome_iff_exists.mp (h i (List.mem_cons_self i rest))
    simp only [selected_children_idx]
    rw [hd]
    dsimp only
    by_cases hsel : d.selected = true
    · rw [if_pos hsel]
      exact ⟨true, rfl⟩
    · rw [if_neg hsel]
      exact ih (fun x hx => h x (List.mem_cons_of_mem _ hx))

theorem selected_children_idx_all_false (t : List dive) (children : List Int)
    (h : ∀ i ∈ children, flagAt t i = some false) :
    selected_children_idx t children = some false := by
  induction children with
  | nil => rfl
  | cons i rest ih =>
    obtain ⟨d, hd, hsel⟩ := (flagAt_some t i false).mp
      (h i (List.mem_cons_self i rest))
    simp only [selected_children_idx]
    rw [hd]
    dsimp only
    rw [if_neg (by simp [hsel])]
    exact ih (fun x hx => h x (List.mem_cons_of_mem _ hx))

theorem selected_children_idx_head_true (t : List dive) (children : List Int)
    (hne : children ≠ [])
    (h : ∀ i ∈ children, flagAt t i = some true) :
    selected_children_idx t children = some true := by
  cases children with
  | nil => exact absurd rfl hne
  | cons i rest =>
    obtain ⟨d, hd, hsel⟩ := (flagAt_some t i true).mp
      (h i (List.mem_cons_self i rest))
    simp only [selected_children_idx]
    rw [hd]
    dsimp only
    rw [if_pos hsel]

/-- C2: toggling a trip-group row with member dive indices `children` to the
requested state `s`: if `s` equals the group's derived selection (the OR over
the members' selected flags, as computed by `selected_children`), nothing
changes; if it differs, the toggle succeeds and sets every member's selected
flag to `s` in the one pass, after which the derived selection equals `s`.
In particular toggling a fully unselected group to selected selects all `N`
members, and toggling again deselects all of them. -/
theorem select_dive_group_toggle (ctx : SelCtx) (children : List Int)
    (s der : Bool) (hne : children ≠ [])
    (hpres : ∀ i ∈ children, (get_dive ctx.table i).isSome = true)
    (hder : selected_children_idx ctx.table children = some der) :
    (s = der → select_dive_group ctx children s = some ctx) ∧
    (s ≠ der → ∃ ctx', select_dive_group ctx children s = some ctx'
      ∧ (∀ i ∈ children, flagAt ctx'.table i = some s)
      ∧ selected_children_idx ctx'.table children = some s) := by
  constructor
  · intro hs
    unfold select_dive_group
    rw [hder]
    dsimp only
    rw [if_pos hs]
  · intro hs
    unfold select_dive_group
    rw [hder]
    dsimp only
    rw [if_neg hs]
    obtain ⟨ctx', hloop, hflags⟩ := sdg_loop_total s children ctx true hpres
    cases children with
    | nil => exact absurd rfl hne
    | cons i rest =>
      refine ⟨ctx', hloop, hflags, ?_⟩
      cases s with
      | false => exact selected_children_idx_all_false _ _ hflags
      | true => exact selected_children_idx_head_true _ _ (by simp) hflags

theorem row_expanded_cb_none (table : List dive) (children : List Int)
    (idx : Int) (hmem : idx ∈ children) (habs : get_dive table idx = none) :
    row_expanded_cb table children = none := by
  induction children with
  | nil => cases hmem
  | cons a t ih =>
    rcases List.mem_cons.mp hmem with rfl | hmem
    · simp only [row_expanded_cb]
      rw [habs]
    · simp only [row_expanded_cb]
      cases ha : get_dive table a
      · rfl
      · rw [ih hmem]

/-- C1 counterexample: with an empty Dive Store, index 0 is absent
(`get_dive` returns null), yet `row_expanded_cb` on a summary row listing
child index 0 dereferences the null record — modelled as `none` — instead of
completing without error, so the claim that all three operations treat a
missing index as a harmless no-op is false. -/
theorem missing_dive_counterexample :
    get_dive ([] : List dive) 0 = none ∧
    row_expanded_cb ([] : List dive) [0] = none := by
  exact ⟨rfl, rfl⟩

/-- C1 (amended): when `get_dive(idx)` is null for a non-negative index,
only `set_one_dive` treats the index as a no-op — it checks for the null
record, touches nothing and returns TRUE without error; `row_expanded_cb`
with that index among a summary row's children and `check_selection_cb` on
that index both dereference the null record and fail (modelled as `none`)
rather than completing. -/
theorem missing_dive_handling (ctx : SelCtx) (idx : Int) (data : Option Int)
    (children : List Int) (g : Bool)
    (hidx : 0 ≤ idx) (habs : get_dive ctx.table idx = none)
    (hmem : idx ∈ children) :
    set_one_dive ctx.table idx data = some (true, false) ∧
    row_expanded_cb ctx.table children = none ∧
    check_selection_cb ctx idx children g = none := by
  refine ⟨?_, ?_, ?_⟩
  · unfold set_one_dive
    rw [if_neg (by omega), habs]
  · exact row_expanded_cb_none ctx.table children idx hmem habs
  · unfold check_selection_cb
    rw [if_neg (by omega), habs]

/-- C1 witness: the three behaviours at the concrete empty store and child
index 0. -/
theorem missing_dive_handling_witness :
    set_one_dive ctx_empty.table 0 none = some (true, false) ∧
    row_expanded_cb ctx_empty.table [0] = none ∧
    check_selection_cb ctx_empty 0 [0] true = none :=
  missing_dive_handling ctx_empty 0 none [0] true (by decide) (by decide)
    (by decide)

/-- C2 witness: toggling a three-dive group with no member selected to
"selected" succeeds. -/
theorem select_dive_group_toggle_witness :
    (select_dive_group ctx3 [0, 1, 2] true).isSome = true := by
  obtain ⟨ctx', hsel, -, -⟩ :=
    (select_dive_group_toggle ctx3 [0, 1, 2] true false (by decide)
      (by decide) (by decide)).2 (by decide)
  rw [hsel]
  rfl

/-- C9: the trip-grouping scenario of the spec.  For any trip window that
accepts the t=95 dive into the trip opened at t=100 but rejects the t=50 dive
against that trip (now timestamped 95), rebuilding the Dive Store
[t=50, t=95, t=100] (oldest first) with autogroup on produces exactly two
trips: trip A holding the two newest dives with its representative timestamp
equal to 95 — each attachment overwrote the trip's timestamp with the just
attached dive's, and the dives are processed newest-first, so the final value
is the earliest member's — and trip B holding the t=50 dive with timestamp
50. -/
theorem fill_dive_list_two_trips (fits : Int → Int → Bool)
    (h1 : fits 95 100 = true) (h2 : fits 50 95 = false) :
    (fill_dive_list fits true [dive_at 50, dive_at 95, dive_at 100] [] 0).trip_list
      = [{ id := 0, number := 2, when := 95, location := none },
         { id := 1, number := 1, when := 50, location := none }] ∧
    (fill_dive_list fits true [dive_at 50, dive_at 95, dive_at 100] [] 0).rows
      = [(0, some 1), (1, some 0), (2, some 0)] := by
  have hrun : fill_dive_list fits true [dive_at 50, dive_at 95, dive_at 100] [] 0
      = fill_step fits true (fill_step fits true (fill_step fits true
          { dives := [dive_at 50, dive_at 95, dive_at 100], trip_list := [],
            next_id := 0, trip := none, dive_trip := none, last_trip := none,
            rows := [] } 2) 1) 0 := rfl
  have e1 : fill_step fits true
      { dives := [dive_at 50, dive_at 95, dive_at 100], trip_list := [],
        next_id := 0, trip := none, dive_trip := none, last_trip := none,
        rows := [] } 2
      = { dives := [dive_at 50, dive_at 95,
            { dive_at 100 with tripflag := TripFlag.IN_TRIP }],
          trip_list := [{ id := 0, number := 1, when := 100, location := none }],
          next_id := 1, trip := some 0, dive_trip := some 0,
          last_trip := some 0, rows := [(2, some 0)] } := rfl
  have e2 : fill_step fits true
      { dives := [dive_at 50, dive_at 95,
          { dive_at 100 with tripflag := TripFlag.IN_TRIP }],
        trip_list := [{ id := 0, number := 1, when := 100, location := none }],
        next_id := 1, trip := some 0, dive_trip := some 0,
        last_trip := some 0, rows := [(2, some 0)] } 1
      = { dives := [dive_at 50,
            { dive_at 95 with tripflag := TripFlag.IN_TRIP },
            { dive_at 100 with tripflag := TripFlag.IN_TRIP }],
          trip_list := [{ id := 0, number := 2, when := 95, location := none }],
          next_id := 1, trip := some 0, dive_trip := some 0,
          last_trip := some 0, rows := [(1, some 0), (2, some 0)] } := by
    simp [fill_step, fits_trip, trip_get, trip_update, dive_at, dive_base, h1]
  have e3 : fill_step fits true
      { dives := [dive_at 50,
          { dive_at 95 with tripflag := TripFlag.IN_TRIP },
          { dive_at 100 with tripflag := TripFlag.IN_TRIP }],
        trip_list := [{ id := 0, number := 2, when := 95, location := none }],
        next_id := 1, trip := some 0, dive_trip := some 0,
        last_trip := some 0, rows := [(1, some 0), (2, some 0)] } 0
      = { dives := [{ dive_at 50 with tripflag := TripFlag.IN_TRIP },
            { dive_at 95 with tripflag := TripFlag.IN_TRIP },
            { dive_at 100 with tripflag := TripFlag.IN_TRIP }],
          trip_list := [{ id := 0, number := 2, when := 95, location := none },
            { id := 1, number := 1, when := 50, location := none }],
          next_id := 2, trip := some 1, dive_trip := some 1,
          last_trip := some 1,
          rows := [(0, some 1), (1, some 0), (2, some 0)] } := by
    simp [fill_step, fits_trip, trip_get, trip_update, alloc_and_insert,
      insert_trip, dive_at, dive_base, h2]
  rw [hrun, e1, e2, e3]
  exact ⟨rfl, rfl⟩

/-- C9 witness: the scenario evaluated with the concrete ten-unit window,
which accepts (95, 100) and rejects (50, 95). -/
theorem fill_dive_list_two_trips_witness :
    (fill_dive_list fits_near true [dive_at 50, dive_at 95, dive_at 100] [] 0).trip_list
      = [{ id := 0, number := 2, when := 95, location := none },
         { id := 1, number := 1, when := 50, location := none }] ∧
    (fill_dive_list fits_near true [dive_at 50, dive_at 95, dive_at 100] [] 0).rows
      = [(0, some 1), (1, some 0), (2, some 0)] :=
  fill_dive_list_two_trips fits_near (by decide) (by decide)

/-- C3: the failing input for the rebuild round-trip.  One dive at t=100 with
autogroup on: the first rebuild creates one trip and reports member count 1;
the second rebuild (`dive_list_update_dives` clears only the tree stores,
never the persistent `dive_trip_list` nor the trips' `number` fields) reuses
the surviving trip — the dive, now flagged IN_TRIP, directly fits the cursor
trip, the path on which `number` is not reset — and increments its count to 2
although the partition is unchanged and the trip still has exactly one
member. -/
theorem rebuild_member_count_bug :
    (fill_dive_list fits_near true [dive_at 100] [] 0).rows
      = [(0, some 0)] ∧
    (fill_dive_list fits_near true [dive_at 100] [] 0).trip_list
      = [{ id := 0, number := 1, when := 100, location := none }] ∧
    (dive_list_update_dives fits_near true
        (fill_dive_list fits_near true [dive_at 100] [] 0)).rows
      = [(0, some 0)] ∧
    (dive_list_update_dives fits_near true
        (fill_dive_list fits_near true [dive_at 100] [] 0)).trip_list
      = [{ id := 0, number := 2, when := 100, location := none }] := by
  exact ⟨rfl, rfl, rfl, rfl⟩

end Divelist
